import Mathlib

/-!
Verification of the spec of sysklogd's `ksym_mod.c` (module symbol tables for
klogd) against a shallow embedding of the C source.

The embedding mirrors, function by function:
  - `InitMsyms`        (`initMsymsWith`): line filtering, the per-line call to
    `AddSymbol` (whose return value the C loop ignores), and the final
    per-module `qsort`;
  - `AddSymbol`        (`addSymbol`): bracket handling, first-space split,
    `strtoul(.., 16)` address parse, the grouping decision against the static
    `lastmodule`, and the `realloc`/`strdup` of the symbol entry;
  - `AddModule`        (`addModule`);
  - `symsort` + `qsort` (`sortModule`, via an ascending-by-address sort);
  - `LookupModuleSymbol` (`LookupModuleSymbol`).

Heap allocation is made explicit: every `malloc`/`realloc`/`strdup` consumes
one answer from an allocation oracle (`List Bool`; an exhausted oracle always
succeeds).  All machine arithmetic is 64-bit `unsigned long`, modelled as `Nat`
with explicit reduction modulo `2 ^ 64`.
-/

namespace Ksym

/-- C strings (`char *` contents) are modelled as lists of characters. -/
abbrev Str := List Char

/-- `2 ^ 64`: modulus of the 64-bit `unsigned long` arithmetic of the C code. -/
def ulMod : Nat := 18446744073709551616

/-- C `isspace` in the default locale: space, tab, newline, vertical tab,
form feed, carriage return. -/
def isspaceC (c : Char) : Bool :=
  c == ' ' || c == '\t' || c == '\n' || c == '\x0b' || c == '\x0c' || c == '\r'

/-- Value of one hexadecimal digit; `none` for any other character. -/
def hexVal? (c : Char) : Option Nat :=
  if '0' ≤ c ∧ c ≤ '9' then some (c.toNat - '0'.toNat)
  else if 'a' ≤ c ∧ c ≤ 'f' then some (c.toNat - 'a'.toNat + 10)
  else if 'A' ≤ c ∧ c ≤ 'F' then some (c.toNat - 'A'.toNat + 10)
  else none

/-- `strtoul(s, NULL, 16)` as `AddSymbol` uses it: skip leading whitespace and
an optional `0x`/`0X`, consume hexadecimal digits, clamp to `ULONG_MAX` on
overflow.  (The optional sign, never present in `/proc/kallsyms` input, is not
modelled.) -/
def strtoulHex (s : Str) : Nat :=
  let s1 := s.dropWhile isspaceC
  let s2 := match s1 with
    | '0' :: 'x' :: r => r
    | '0' :: 'X' :: r => r
    | r => r
  let digits := s2.takeWhile (fun c => (hexVal? c).isSome)
  let v := digits.foldl (fun acc c => acc * 16 + (hexVal? c).getD 0) 0
  if v < ulMod then v else ulMod - 1

/-- `InitMsyms` replaces one trailing `'\n'` of the `fgets` buffer by `'\0'`. -/
def stripNL (s : Str) : Str :=
  if s.getLast? = some '\n' then s.dropLast else s

/-- The backwards `isspace` walk of `AddSymbol`, which terminates the line
after the last non-space character preceding the `'['`. -/
def dropTrailingWS (s : Str) : Str :=
  (s.reverse.dropWhile isspaceC).reverse

/-- Bracket handling at the top of `AddSymbol`: if the line contains `'['`,
the characters after it up to the first `']'` (or the end of the line) become
the candidate module name, and the line itself is cut just after the last
non-space character before the `'['`.  Returns (module name or none,
remaining line). -/
def bracketSplit (line : Str) : Option Str × Str :=
  match line.findIdx? (fun c => c == '[') with
  | none => (none, line)
  | some i =>
      (some ((line.drop (i + 1)).takeWhile (fun c => c != ']')),
       dropTrailingWS (line.take i))

/-- The parsing part of `AddSymbol`: bracket handling, then the split at the
first `' '` (no space: reject, return 0), the `strtoul` hexadecimal address
parse of the text before the space, and the symbol name starting three
characters after the space (`p += 3`, skipping the two-character type field;
a line ending before that point yields an empty name).  Produces
(module name or none, address, symbol name). -/
def parseLine (line : Str) : Option (Option Str × Nat × Str) :=
  let mb := bracketSplit line
  match mb.2.findIdx? (fun c => c == ' ') with
  | none => none
  | some sp => some (mb.1, strtoulHex (mb.2.take sp), mb.2.drop (sp + 3))

/-- Modelled from the spec: `struct sym_table` is declared in `ksyms.h`, which
is not under `src/`; per the spec a Symbol is a name (never a null pointer
once stored: `strdup` result) and an unsigned address. -/
structure SymTable where
  name : Str
  value : Nat
deriving DecidableEq, Repr

/-- Modelled from the spec: `struct Module` is declared in `module.h`, which
is not under `src/`; the fields used by `ksym_mod.c` are `name` (`NULL` for
the anonymous kernel module), `sym_array` (`NULL` or an allocated array) and
`num_syms` (the recorded symbol count, which the C code tracks separately
from the allocation itself). -/
structure Module where
  name : Option Str
  sym_array : Option (List SymTable)
  num_syms : Nat
deriving DecidableEq, Repr

/-- The mutable state of one `InitMsyms` run: the global module array
(`sym_array_modules` with `num_modules` = its length), `AddSymbol`'s static
`lastmodule`, and the remaining allocation oracle. -/
structure LoadState where
  modules : List Module
  lastmodule : Option Str
  alloc : List Bool
deriving DecidableEq, Repr

/-- Draw one answer from the allocation oracle; an exhausted oracle means all
further allocations succeed. -/
def takeAlloc : List Bool → Bool × List Bool
  | [] => (true, [])
  | b :: r => (b, r)

/-- Apply `f` to the last element of the module list (the module `AddSymbol`
writes through `mp`). -/
def updateLast (f : Module → Module) : List Module → List Module
  | [] => []
  | [m] => [f m]
  | m :: m2 :: rest => m :: updateLast f (m2 :: rest)

/-- `AddModule`: grow the module array by one (one allocation; on failure the
array is left as it was and no module is added), initialise `sym_array = NULL`
and `num_syms = 0`, then `strdup` the name — whose failure is NOT checked by
the C code: the module silently becomes anonymous. -/
def addModule (st : LoadState) (module? : Option Str) : Option Module × LoadState :=
  let a1 := takeAlloc st.alloc
  if a1.1 then
    match module? with
    | none =>
        let mp : Module := { name := none, sym_array := none, num_syms := 0 }
        (some mp, { st with alloc := a1.2, modules := st.modules ++ [mp] })
    | some nm =>
        let a2 := takeAlloc a1.2
        let mp : Module :=
          { name := if a2.1 then some nm else none
            sym_array := none
            num_syms := 0 }
        (some mp, { st with alloc := a2.2, modules := st.modules ++ [mp] })
  else (none, { st with alloc := a1.2 })

/-- The new-group test of `AddSymbol` (C lines 326-329): a fresh module is
opened when no module exists yet, when exactly one of the record's module name
and `lastmodule` is null, or when both are present and `strcmp` differs. -/
def newGroupDecision (nmods : Nat) (module? lastmodule : Option Str) : Bool :=
  nmods == 0 ||
    (match lastmodule, module? with
     | none, none => false
     | none, some _ => true
     | some _, none => true
     | some lm, some m => m != lm)

/-- The entries currently reachable through `mp->sym_array`.  When the array
pointer is `NULL` but `num_syms = k > 0` (only reachable after an unchecked
`realloc` failure), a later successful `realloc(NULL, (k+1)*size)` yields `k`
indeterminate entries before the new slot; the model fixes those indeterminate
entries to `⟨[], 0⟩`. -/
def entriesOf (m : Module) : List SymTable :=
  match m.sym_array with
  | some l => l
  | none => List.replicate m.num_syms ⟨[], 0⟩

/-- The symbol-commit part of `AddSymbol` (C lines 339-354), acting on the
last (active) module: `realloc` the symbol array to `num_syms + 1` entries —
on failure the C code stores the `NULL` result into `mp->sym_array` while
leaving `mp->num_syms` unchanged — then `strdup` the name (on failure the
grown array keeps only the old entries), then store the entry and increment
`num_syms`.  Returns `AddSymbol`'s boolean result. -/
def commitSym (st : LoadState) (symname : Str) (address : Nat) : Bool × LoadState :=
  let a1 := takeAlloc st.alloc
  if a1.1 then
    let a2 := takeAlloc a1.2
    if a2.1 then
      (true, { st with
                 alloc := a2.2
                 modules := updateLast (fun m =>
                   { m with
                       sym_array := some (entriesOf m ++ [⟨symname, address⟩])
                       num_syms := m.num_syms + 1 }) st.modules })
    else
      (false, { st with
                  alloc := a2.2
                  modules := updateLast (fun m =>
                    { m with sym_array := some (entriesOf m) }) st.modules })
  else
    (false, { st with
                alloc := a1.2
                modules := updateLast (fun m =>
                  { m with sym_array := none }) st.modules })

/-- `AddSymbol(line)`: parse the line (no space: return 0 with no state
change), decide same-group vs new-group, possibly call `AddModule` (returning
0 on its failure, with `lastmodule` untouched), set `lastmodule` to the active
module's stored name, and commit the symbol entry. -/
def addSymbol (st : LoadState) (line : Str) : Bool × LoadState :=
  match parseLine line with
  | none => (false, st)
  | some (module?, address, symname) =>
      if newGroupDecision st.modules.length module? st.lastmodule then
        match addModule st module? with
        | (none, st1) => (false, st1)
        | (some mp, st1) => commitSym { st1 with lastmodule := mp.name } symname address
      else
        match st.modules.getLast? with
        | none => (false, st)
        | some mp => commitSym { st with lastmodule := mp.name } symname address

/-- One iteration of the `fgets` loop of `InitMsyms`: skip the line when a
static symbol table is present (`num_syms > 0`) and the line has no `'['`;
skip it when it contains no `' '`; otherwise strip the trailing newline and
call `AddSymbol` — whose return value the loop discards. -/
def processLine (numsyms : Nat) (st : LoadState) (buf : Str) : LoadState :=
  if 0 < numsyms ∧ buf.findIdx? (fun c => c == '[') = none then st
  else if (buf.findIdx? (fun c => c == ' ')).isNone then st
  else (addSymbol st (stripNL buf)).2

/-- Ascending order on symbol addresses: what the `symsort` comparator hands
to `qsort`. -/
def symLE (a b : SymTable) : Prop := a.value ≤ b.value

instance : DecidableRel symLE := fun a b => Nat.decLe a.value b.value

instance : IsTotal SymTable symLE := ⟨fun a b => Nat.le_total a.value b.value⟩

instance : IsTrans SymTable symLE := ⟨fun _ _ _ => Nat.le_trans⟩

/-- The sort phase of `InitMsyms` for one module: modules with fewer than two
recorded symbols are skipped; otherwise `qsort(sym_array, num_syms, .., symsort)`
sorts the entries ascending by address (ties in arbitrary order). -/
def sortModule (m : Module) : Module :=
  if m.num_syms < 2 then m
  else { m with sym_array := m.sym_array.map (List.insertionSort symLE) }

/-- `InitMsyms`: clear the previous table (`FreeModules`: the run starts from
an empty store), open the symbol source (`none` models `fopen` failure, which
returns 0 with the store left empty), stream every line through the filter and
`AddSymbol`, sort each module's symbols, and return 1.  The result of each
`AddSymbol` call is ignored, exactly as in the C loop. -/
def initMsymsWith (alloc : List Bool) (numsyms : Nat) (src : Option (List Str)) :
    Bool × List Module :=
  match src with
  | none => (false, [])
  | some lines =>
      let st := lines.foldl (processLine numsyms) ⟨[], none, alloc⟩
      (true, st.modules.map sortModule)

/-- A module is in a consistent, freeable state when its recorded symbol count
matches the entries actually reachable through its array: a `NULL` array must
record zero symbols (`FreeModules` frees `num_syms` names out of `sym_array`). -/
def consistentModule (m : Module) : Bool :=
  match m.sym_array with
  | none => m.num_syms == 0
  | some l => l.length == m.num_syms

/-- Total number of recorded symbols of a module list (the `rtn` counter of
`InitMsyms`). -/
def totalSyms (mods : List Module) : Nat := (mods.map (·.num_syms)).sum

/-- Reachable-state invariant relating `AddSymbol`'s static `lastmodule` to
the active (last) module: `lastmodule` holds the stored name of the module
last written through `mp`. -/
def lastNameInv (st : LoadState) : Prop :=
  match st.modules.getLast? with
  | none => True
  | some m => m.name = st.lastmodule

instance (st : LoadState) : Decidable (lastNameInv st) := by
  unfold lastNameInv
  match st.modules.getLast? with
  | none => exact inferInstanceAs (Decidable True)
  | some m => exact inferInstanceAs (Decidable (m.name = st.lastmodule))

/-- 64-bit unsigned subtraction `a - b` on `unsigned long` operands. -/
def usub (a b : Nat) : Nat := (a % ulMod + (ulMod - b % ulMod)) % ulMod

/-- Result formatting of `LookupModuleSymbol`:
`snprintf(ret, sizeof(ret) - 1, ...)` into the static 100-byte buffer writes
`"<module>:<symbol>"` when the module has a name and `"<symbol>"` otherwise,
truncated to at most 98 characters. -/
def fmtLabel (mname : Option Str) (sname : Str) : Str :=
  (match mname with
   | none => sname
   | some m => m ++ ':' :: sname).take 98

/-- The running best candidate of `LookupModuleSymbol`: the caller-visible
`sym->offset` and `sym->size` (zero size doubles as "best unset") and the
static `ret` label buffer. -/
structure Best where
  offset : Nat
  size : Nat
  ret : Str
deriving DecidableEq, Repr

/-- The candidate update of `LookupModuleSymbol` (C lines 400-414): the pair
`(value - last->value, next->value - last->value)` replaces the best when the
best is unset (`size == 0`), or its offset is strictly smaller, or offsets are
equal and its size is strictly smaller; the label buffer is rewritten at the
same time. -/
def updateBest (v : Nat) (mname : Option Str) (b : Best) (last next : SymTable) : Best :=
  let noff := usub v last.value
  let nsz := usub next.value last.value
  if b.size = 0 ∨ noff < b.offset ∨ (b.offset = noff ∧ nsz < b.size) then
    { offset := noff, size := nsz, ret := fmtLabel mname last.name }
  else b

/-- The inner symbol walk of `LookupModuleSymbol`: starting from index 1 with
`last` the previous entry, stop at the first entry whose address is strictly
greater than the query, update-or-keep the best there, and leave the module
(`break`).  A module without such an entry contributes nothing. -/
def scanPairs (v : Nat) (mname : Option Str) (b : Best) : List SymTable → Best
  | [] => b
  | [_] => b
  | last :: next :: rest =>
      if v < next.value then updateBest v mname b last next
      else scanPairs v mname b (next :: rest)

/-- The entries the C loop actually walks: `num_syms` entries of `sym_array`.
(A `NULL` array with `num_syms ≥ 2`, or a count beyond the allocation — both
only reachable after the unchecked `realloc` failure — would be undefined
behaviour in C; the model walks the representable entries.) -/
def scanList (mp : Module) : List SymTable :=
  (match mp.sym_array with
   | some l => l
   | none => []).take mp.num_syms

/-- One module's contribution to the lookup. -/
def scanModule (v : Nat) (b : Best) (mp : Module) : Best :=
  scanPairs v mp.name b (scanList mp)

/-- `LookupModuleSymbol(value, sym)`: zero `sym->size` and `sym->offset`,
return `NULL` at once on an empty module table, otherwise scan every module
and return the label (with the final offset and size) when the final size is
positive, `NULL` otherwise.  The result triple is
(label or none, `sym->offset`, `sym->size`). -/
def LookupModuleSymbol (value : Nat) (mods : List Module) : Option Str × Nat × Nat :=
  let v := value % ulMod
  if mods.length = 0 then (none, 0, 0)
  else
    let b := mods.foldl (scanModule v) { offset := 0, size := 0, ret := [] }
    if 0 < b.size then (some b.ret, b.offset, b.size) else (none, b.offset, b.size)

/-- Modelled from the spec: the replacement rule of the Lookup Engine, in the
spec's own words — "This candidate replaces best if: best is unset, OR offset
is strictly smaller than best's offset, OR (offset equal AND size strictly
smaller than best's size)" — with "best is unset" represented, as the spec
itself fixes, by `size = 0`. -/
def specReplaceRule (bOff bSz cOff cSz : Nat) : Bool :=
  bSz == 0 || decide (cOff < bOff) || (cOff == bOff && decide (cSz < bSz))

/-! ## Helper lemmas about `updateLast` -/

theorem mem_updateLast {f : Module → Module} {a : Module} :
    ∀ {l : List Module}, a ∈ updateLast f l → a ∈ l ∨ ∃ b ∈ l, a = f b
  | [], h => by simp [updateLast] at h
  | [m], h => by
      simp only [updateLast, List.mem_singleton] at h
      exact Or.inr ⟨m, List.mem_singleton_self m, h⟩
  | m :: m2 :: rest, h => by
      simp only [updateLast, List.mem_cons] at h
      rcases h with h | h
      · exact Or.inl (h ▸ List.mem_cons_self _ _)
      · rcases mem_updateLast h with h2 | ⟨b, hb, hab⟩
        · exact Or.inl (List.mem_cons_of_mem _ h2)
        · exact Or.inr ⟨b, List.mem_cons_of_mem _ hb, hab⟩

theorem getLast?_updateLast (f : Module → Module) :
    ∀ l : List Module, (updateLast f l).getLast? = l.getLast?.map f
  | [] => rfl
  | [m] => by simp [updateLast]
  | m :: m2 :: rest => by
      have ih := getLast?_updateLast f (m2 :: rest)
      cases rest with
      | nil => simp [updateLast]
      | cons m3 r3 =>
          simp only [updateLast, List.getLast?_cons_cons] at ih ⊢
          exact ih

theorem totalSyms_updateLast_succ {f : Module → Module}
    (hf : ∀ m, (f m).num_syms = m.num_syms + 1) :
    ∀ l : List Module, l ≠ [] → totalSyms (updateLast f l) = totalSyms l + 1
  | [], h => absurd rfl h
  | [m], _ => by simp [updateLast, totalSyms, hf]
  | m :: m2 :: rest, _ => by
      have ih := totalSyms_updateLast_succ hf (m2 :: rest) (by simp)
      simp only [updateLast, totalSyms, List.map_cons, List.sum_cons] at ih ⊢
      omega

theorem totalSyms_concat (l : List Module) (m : Module) :
    totalSyms (l ++ [m]) = totalSyms l + m.num_syms := by
  simp [totalSyms]

/-! ## The count/length invariant of the symbol arrays -/

/-- A module's recorded count matches its committed entries whenever the array
is allocated. -/
def lenOk (m : Module) : Prop :=
  ∀ l, m.sym_array = some l → l.length = m.num_syms

theorem lenOk_entriesOf {m : Module} (h : lenOk m) :
    (entriesOf m).length = m.num_syms := by
  unfold entriesOf
  cases hm : m.sym_array with
  | none => simp
  | some l => exact h l hm

theorem lenOk_of_mem_updateLast {f : Module → Module} {l : List Module}
    (hl : ∀ b ∈ l, lenOk b) (hf : ∀ b, lenOk b → lenOk (f b))
    {a : Module} (ha : a ∈ updateLast f l) : lenOk a := by
  rcases mem_updateLast ha with h | ⟨b, hb, hab⟩
  · exact hl a h
  · exact hab ▸ hf b (hl b hb)

theorem lenOk_of_none {m : Module} (h : m.sym_array = none) : lenOk m := by
  intro l hl
  rw [h] at hl
  cases hl

/-- `AddModule` preserves the count/length invariant of every module. -/
theorem addModule_lenOk {st : LoadState} (hst : ∀ m ∈ st.modules, lenOk m)
    (module? : Option Str) : ∀ m ∈ (addModule st module?).2.modules, lenOk m := by
  simp only [addModule]
  split
  · cases module? with
    | none =>
        intro m hm
        rcases List.mem_append.mp hm with h | h
        · exact hst m h
        · rw [List.mem_singleton.mp h]
          exact lenOk_of_none rfl
    | some nm =>
        intro m hm
        rcases List.mem_append.mp hm with h | h
        · exact hst m h
        · rw [List.mem_singleton.mp h]
          exact lenOk_of_none rfl
  · exact hst

/-- The symbol-commit step preserves the count/length invariant. -/
theorem commitSym_lenOk (st : LoadState) (hst : ∀ m ∈ st.modules, lenOk m)
    (symname : Str) (address : Nat) :
    ∀ m ∈ (commitSym st symname address).2.modules, lenOk m := by
  simp only [commitSym]
  split
  · split
    · intro m hm
      refine lenOk_of_mem_updateLast hst (fun b hb => ?_) hm
      intro l hl
      simp only at hl
      injection hl with hl
      rw [← hl]
      simp [lenOk_entriesOf hb]
    · intro m hm
      refine lenOk_of_mem_updateLast hst (fun b hb => ?_) hm
      intro l hl
      simp only at hl
      injection hl with hl
      rw [← hl]
      exact lenOk_entriesOf hb
  · intro m hm
    exact lenOk_of_mem_updateLast hst (fun b _ => lenOk_of_none rfl) hm

/-- `AddSymbol` preserves the count/length invariant of every module. -/
theorem addSymbol_lenOk {st : LoadState} (hst : ∀ m ∈ st.modules, lenOk m)
    (line : Str) : ∀ m ∈ (addSymbol st line).2.modules, lenOk m := by
  unfold addSymbol
  cases hp : parseLine line with
  | none => exact hst
  | some r =>
      obtain ⟨module?, address, symname⟩ := r
      dsimp only
      split
      · cases ham : addModule st module? with
        | mk mp? st1 =>
            have hst1 : ∀ m ∈ st1.modules, lenOk m := by
              have := addModule_lenOk hst module?
              rw [ham] at this
              exact this
            cases mp? with
            | none => exact hst1
            | some mp =>
                dsimp only
                exact commitSym_lenOk ⟨st1.modules, mp.name, st1.alloc⟩ hst1 symname address
      · cases st.modules.getLast? with
        | none => exact hst
        | some mp =>
            dsimp only
            exact commitSym_lenOk ⟨st.modules, mp.name, st.alloc⟩ hst symname address

/-- One `fgets`-loop iteration preserves the count/length invariant. -/
theorem processLine_lenOk {st : LoadState} (hst : ∀ m ∈ st.modules, lenOk m)
    (numsyms : Nat) (buf : Str) :
    ∀ m ∈ (processLine numsyms st buf).modules, lenOk m := by
  unfold processLine
  split
  · exact hst
  · split
    · exact hst
    · exact addSymbol_lenOk hst (stripNL buf)

theorem foldl_processLine_lenOk (numsyms : Nat) :
    ∀ (lines : List Str) (st : LoadState), (∀ m ∈ st.modules, lenOk m) →
      ∀ m ∈ (lines.foldl (processLine numsyms) st).modules, lenOk m
  | [], _, hst => hst
  | buf :: rest, st, hst =>
      foldl_processLine_lenOk numsyms rest (processLine numsyms st buf)
        (processLine_lenOk hst numsyms buf)

/-- Sorting one module leaves its entries ascending by address pairwise, given
the count/length invariant (a module with fewer than two recorded symbols is
skipped, and then holds at most one entry). -/
theorem sortModule_chain {m : Module} (hm : lenOk m) {l : List SymTable}
    (hl : (sortModule m).sym_array = some l) : l.Chain' symLE := by
  unfold sortModule at hl
  split at hl
  · have hlen := hm l hl
    cases l with
    | nil => exact List.chain'_nil
    | cons a t =>
        cases t with
        | nil => exact List.chain'_singleton a
        | cons b t2 =>
            simp only [List.length_cons] at hlen
            omega
  · simp only at hl
    rcases Option.map_eq_some'.mp hl with ⟨l0, _, rfl⟩
    exact List.chain'_iff_pairwise.mpr (List.sorted_insertionSort symLE l0)

/-! ## Helper lemmas about the lookup scan -/

theorem scanPairs_of_no_hit (v : Nat) (mn : Option Str) (b : Best) :
    ∀ l : List SymTable, (∀ s ∈ l.drop 1, ¬ v < s.value) → scanPairs v mn b l = b
  | [], _ => rfl
  | [_], _ => rfl
  | last :: next :: rest, h => by
      have hnext : ¬ v < next.value := h next (List.mem_cons_self _ _)
      simp only [scanPairs, if_neg hnext]
      exact scanPairs_of_no_hit v mn b (next :: rest)
        (fun s hs => h s (List.mem_cons_of_mem _ hs))

theorem foldl_scan_of_no_hit (v : Nat) :
    ∀ (mods : List Module) (b : Best),
      (∀ mp ∈ mods, ∀ s ∈ (scanList mp).drop 1, ¬ v < s.value) →
      mods.foldl (scanModule v) b = b
  | [], _, _ => rfl
  | mp :: rest, b, h => by
      rw [List.foldl_cons,
          show scanModule v b mp = b from
            scanPairs_of_no_hit v mp.name b (scanList mp) (h mp (List.mem_cons_self _ _))]
      exact foldl_scan_of_no_hit v rest b (fun m hm => h m (List.mem_cons_of_mem _ hm))

theorem updateBest_self_or_label (v : Nat) (mn : Option Str) (b : Best)
    (last next : SymTable) :
    updateBest v mn b last next = b ∨
      (updateBest v mn b last next).ret = fmtLabel mn last.name := by
  simp only [updateBest]
  split
  · exact Or.inr rfl
  · exact Or.inl rfl

theorem scanPairs_self_or_label (v : Nat) (mn : Option Str) (b : Best) :
    ∀ l : List SymTable,
      scanPairs v mn b l = b ∨ ∃ s ∈ l, (scanPairs v mn b l).ret = fmtLabel mn s.name
  | [] => Or.inl rfl
  | [_] => Or.inl rfl
  | last :: next :: rest => by
      by_cases hv : v < next.value
      · simp only [scanPairs, if_pos hv]
        rcases updateBest_self_or_label v mn b last next with h | h
        · exact Or.inl h
        · exact Or.inr ⟨last, List.mem_cons_self _ _, h⟩
      · simp only [scanPairs, if_neg hv]
        rcases scanPairs_self_or_label v mn b (next :: rest) with h | ⟨s, hs, h⟩
        · exact Or.inl h
        · exact Or.inr ⟨s, List.mem_cons_of_mem _ hs, h⟩

theorem foldl_scan_self_or_label (v : Nat) :
    ∀ (mods : List Module) (b : Best),
      mods.foldl (scanModule v) b = b ∨
        ∃ mp ∈ mods, ∃ s ∈ scanList mp,
          (mods.foldl (scanModule v) b).ret = fmtLabel mp.name s.name
  | [], _ => Or.inl rfl
  | mp :: rest, b => by
      rw [List.foldl_cons]
      rcases foldl_scan_self_or_label v rest (scanModule v b mp) with h | ⟨mp2, hmp2, s, hs, h⟩
      · rw [h]
        rcases scanPairs_self_or_label v mp.name b (scanList mp) with h2 | ⟨s, hs, h2⟩
        · exact Or.inl h2
        · exact Or.inr ⟨mp, List.mem_cons_self _ _, s, hs, h2⟩
      · exact Or.inr ⟨mp2, List.mem_cons_of_mem _ hmp2, s, hs, h⟩

theorem specReplaceRule_iff (bOff bSz cOff cSz : Nat) :
    specReplaceRule bOff bSz cOff cSz = true ↔
      (bSz = 0 ∨ cOff < bOff ∨ (bOff = cOff ∧ cSz < bSz)) := by
  simp only [specReplaceRule, Bool.or_eq_true, beq_iff_eq, decide_eq_true_eq,
    Bool.and_eq_true]
  omega

/-! ## Claim theorems -/

/-- C1: the spec demands that a Module or Symbol allocation failure makes the
whole load fail, and `AddSymbol`/`AddModule` do return 0 on allocation
failure — but the `fgets` loop of `InitMsyms` discards `AddSymbol`'s return
value, so `InitMsyms` still returns 1 (success).  Here the very first
allocation (the Module array for the line's new group) fails, the line's
module and symbol are silently lost, and the load nevertheless reports
success with an empty store. -/
theorem initMsyms_reports_success_despite_alloc_failure :
    initMsymsWith [false] 0 (some ["1000 T f1".toList]) = (true, [])
  ∧ initMsymsWith [] 0 (some ["1000 T f1".toList]) ≠ (true, []) := by
  constructor
  · decide
  · decide

/-- C2: after a failed `realloc` of a symbol array, the C code stores the
`NULL` result into `mp->sym_array` while leaving `mp->num_syms` at its old
value, so `load()` completes with a module recording 1 symbol but holding no
array — the count does not match the live entries, and `FreeModules` would
dereference the `NULL` array.  Input: two symbols of the anonymous module,
with the second symbol-array growth (the 4th allocation) failing. -/
theorem initMsyms_store_inconsistent_after_realloc_failure :
    (initMsymsWith [true, true, true, false] 0
        (some ["1000 T f1".toList, "1010 T f2".toList])).2
      = [{ name := none, sym_array := none, num_syms := 1 }]
  ∧ ∃ m ∈ (initMsymsWith [true, true, true, false] 0
        (some ["1000 T f1".toList, "1010 T f2".toList])).2,
      consistentModule m = false := by
  constructor
  · decide
  · decide

/-- C5: every module of a store produced by a completed `load()`, under any
allocation behaviour, any static-symbol count and any input, has its symbol
entries ascending by address at every adjacent index pair. -/
theorem loaded_store_sorted (alloc : List Bool) (numsyms : Nat)
    (src : Option (List Str)) (mp : Module)
    (hmp : mp ∈ (initMsymsWith alloc numsyms src).2)
    (l : List SymTable) (hl : mp.sym_array = some l) :
    l.Chain' symLE := by
  cases src with
  | none => simp [initMsymsWith] at hmp
  | some lines =>
      simp only [initMsymsWith] at hmp
      rcases List.mem_map.mp hmp with ⟨m0, hm0, rfl⟩
      have hok : lenOk m0 :=
        foldl_processLine_lenOk numsyms lines ⟨[], none, alloc⟩
          (by intro m hm; cases hm) m0 hm0
      exact sortModule_chain hok hl

/-- Witness for C5: loading two anonymous-module lines given in descending
address order yields one module whose entries are ascending. -/
theorem loaded_store_sorted_witness :
    [(⟨"a".toList, 0x1000⟩ : SymTable), ⟨"b".toList, 0x2000⟩].Chain' symLE :=
  loaded_store_sorted [] 0 (some ["2000 T b".toList, "1000 T a".toList])
    ⟨none, some [⟨"a".toList, 0x1000⟩, ⟨"b".toList, 0x2000⟩], 2⟩ (by decide)
    [⟨"a".toList, 0x1000⟩, ⟨"b".toList, 0x2000⟩] rfl

/-- C8: whenever no module offers a qualifying index — no symbol at index 1 or
beyond whose address is strictly greater than the query (which covers a store
with zero modules) — `LookupModuleSymbol` returns `NULL` with both reported
`sym->offset` and `sym->size` equal to 0. -/
theorem lookup_no_candidate_not_found (mods : List Module) (value : Nat)
    (h : ∀ mp ∈ mods, ∀ s ∈ (scanList mp).drop 1, ¬ value % ulMod < s.value) :
    LookupModuleSymbol value mods = (none, 0, 0) := by
  simp only [LookupModuleSymbol]
  split
  · rfl
  · rw [foldl_scan_of_no_hit (value % ulMod) mods _ h]
    rfl

/-- Witness for C8: a query at the last symbol's address (the strictly-greater
test fails everywhere) reports not-found with zero offset and size. -/
theorem lookup_no_candidate_not_found_witness :
    LookupModuleSymbol 0x2000
        [{ name := some "m".toList,
           sym_array := some [⟨"A".toList, 0x1000⟩, ⟨"B".toList, 0x2000⟩],
           num_syms := 2 }]
      = (none, 0, 0) :=
  lookup_no_candidate_not_found
    [{ name := some "m".toList,
       sym_array := some [⟨"A".toList, 0x1000⟩, ⟨"B".toList, 0x2000⟩],
       num_syms := 2 }] 0x2000 (by decide)

/-- C3 (counterexample): the label is produced by `snprintf` into a static
100-byte buffer with size argument `sizeof(ret) - 1`, so it is truncated to
98 characters.  For a module without a name holding a symbol whose name has
99 characters, the returned label is the 98-character truncation, not the
symbol name itself, contradicting the claim's `label = "<symbol-name>"`. -/
theorem lookup_label_truncated_counterexample :
    (LookupModuleSymbol 0x1050
        [{ name := none,
           sym_array := some [⟨List.replicate 99 'a', 0x1000⟩, ⟨"B".toList, 0x1100⟩],
           num_syms := 2 }]).1
      = some (List.replicate 98 'a')
  ∧ List.replicate 98 'a' ≠ List.replicate 99 'a' := by
  constructor
  · decide
  · decide

/-- C3 (amended): resolving 0x1050 in a store whose single module "m" holds
A at 0x1000 and B at 0x1100 yields label "m:A" with offset 0x50 and size
0x100; and in general every label returned by a successful lookup is the
98-character-truncated `"<module-name>:<symbol-name>"` when the winning
module has a name and `"<symbol-name>"` otherwise (`fmtLabel`), for some
module of the store and some symbol among its scanned entries. -/
theorem lookup_label_format :
    (LookupModuleSymbol 0x1050
        [{ name := some "m".toList,
           sym_array := some [⟨"A".toList, 0x1000⟩, ⟨"B".toList, 0x1100⟩],
           num_syms := 2 }]
      = (some "m:A".toList, 0x50, 0x100))
  ∧ ∀ (mods : List Module) (value : Nat) (lab : Str) (off sz : Nat),
      LookupModuleSymbol value mods = (some lab, off, sz) →
      ∃ mp ∈ mods, ∃ s ∈ scanList mp, lab = fmtLabel mp.name s.name := by
  constructor
  · decide
  · intro mods value lab off sz h
    simp only [LookupModuleSymbol] at h
    split at h
    · simp at h
    · split at h
      · next hpos =>
          simp only [Prod.mk.injEq, Option.some.injEq] at h
          obtain ⟨hlab, -, -⟩ := h
          rcases foldl_scan_self_or_label (value % ulMod) mods ⟨0, 0, []⟩ with
            hb | ⟨mp, hmp, s, hs, hret⟩
          · rw [hb] at hpos
            exact absurd hpos (by simp)
          · exact ⟨mp, hmp, s, hs, by rw [← hlab, hret]⟩
      · simp at h

/-- Witness for the amended C3: instantiating the general label-format
statement at a concrete anonymous-module store. -/
theorem lookup_label_format_witness :
    ∃ mp ∈ [({ name := none,
               sym_array := some [⟨"A".toList, 0x1000⟩, ⟨"B".toList, 0x1100⟩],
               num_syms := 2 } : Module)],
      ∃ s ∈ scanList mp, "A".toList = fmtLabel mp.name s.name :=
  lookup_label_format.2
    [{ name := none,
       sym_array := some [⟨"A".toList, 0x1000⟩, ⟨"B".toList, 0x1100⟩],
       num_syms := 2 }] 0x1050 "A".toList 0x50 0x100 (by decide)

/-- C4: the candidate produced at the first qualifying index replaces the
running best exactly under the spec's rule — best unset (`size = 0`), or
strictly smaller offset, or equal offset and strictly smaller size
(`specReplaceRule`, transcribed from the spec's words) — and consequently,
for two modules producing candidates with equal offset 0x50 and sizes 0x200
("aa") versus 0x100 ("bb"), the lookup returns the smaller-size candidate's
label "bb:p" in either module order. -/
theorem lookup_replacement_rule_and_tiebreak :
    (∀ (v : Nat) (mn : Option Str) (b : Best) (last next : SymTable),
        updateBest v mn b last next =
          if specReplaceRule b.offset b.size (usub v last.value) (usub next.value last.value)
          then { offset := usub v last.value, size := usub next.value last.value,
                 ret := fmtLabel mn last.name }
          else b)
  ∧ (LookupModuleSymbol 0x1050
        [{ name := some "aa".toList,
           sym_array := some [⟨"x".toList, 0x1000⟩, ⟨"y".toList, 0x1200⟩],
           num_syms := 2 },
         { name := some "bb".toList,
           sym_array := some [⟨"p".toList, 0x1000⟩, ⟨"q".toList, 0x1100⟩],
           num_syms := 2 }]
      = (some "bb:p".toList, 0x50, 0x100))
  ∧ (LookupModuleSymbol 0x1050
        [{ name := some "bb".toList,
           sym_array := some [⟨"p".toList, 0x1000⟩, ⟨"q".toList, 0x1100⟩],
           num_syms := 2 },
         { name := some "aa".toList,
           sym_array := some [⟨"x".toList, 0x1000⟩, ⟨"y".toList, 0x1200⟩],
           num_syms := 2 }]
      = (some "bb:p".toList, 0x50, 0x100)) := by
  refine ⟨fun v mn b last next => ?_, by decide, by decide⟩
  by_cases h : b.size = 0 ∨ usub v last.value < b.offset ∨
      (b.offset = usub v last.value ∧ usub next.value last.value < b.size)
  · simp only [updateBest]
    rw [if_pos h, if_pos ((specReplaceRule_iff _ _ _ _).mpr h)]
  · simp only [updateBest]
    rw [if_neg h, if_neg (fun hc => h ((specReplaceRule_iff _ _ _ _).mp hc))]

/-- C7: `AddSymbol` keeps appending to the most recently created module
exactly when a module exists and the record's module name and `lastmodule`
are both null or both present and equal by value (`newGroupDecision = false`);
in every other case a fresh module is opened.  Consequently the three lines
"1000 T f1 [m]", "1010 T f2 [m]", "2000 T g1" with a zero static count load
as exactly two modules: "m" with f1, f2 and an anonymous module with g1. -/
theorem grouping_decision_and_example :
    (∀ (n : Nat) (module? lastmodule : Option Str),
        newGroupDecision n module? lastmodule = false ↔
          (n ≠ 0 ∧ ((module? = none ∧ lastmodule = none) ∨
                    ∃ s, module? = some s ∧ lastmodule = some s)))
  ∧ initMsymsWith [] 0
      (some ["1000 T f1 [m]".toList, "1010 T f2 [m]".toList, "2000 T g1".toList])
      = (true,
         [{ name := some "m".toList,
            sym_array := some [⟨"f1".toList, 0x1000⟩, ⟨"f2".toList, 0x1010⟩],
            num_syms := 2 },
          { name := none,
            sym_array := some [⟨"g1".toList, 0x2000⟩],
            num_syms := 1 }]) := by
  constructor
  · intro n module? lastmodule
    cases module? with
    | none =>
        cases lastmodule with
        | none => simp [newGroupDecision, Nat.pos_iff_ne_zero]
        | some lm => simp [newGroupDecision]
    | some m =>
        cases lastmodule with
        | none => simp [newGroupDecision]
        | some lm =>
            simp only [newGroupDecision, Bool.or_eq_false_iff, beq_eq_false_iff_ne,
              bne_eq_false_iff_eq, Option.some.injEq, ne_eq]
            constructor
            · rintro ⟨h1, h2⟩
              exact ⟨h1, Or.inr ⟨m, rfl, h2.symm⟩⟩
            · rintro ⟨h1, h2⟩
              refine ⟨h1, ?_⟩
              rcases h2 with ⟨h2, -⟩ | ⟨s, hs1, hs2⟩
              · cases h2
              · rw [hs1, hs2]
  · decide

/-- C9 (counterexample): the symbol name is taken from three characters past
the first space (`p += 3`); for the accepted line "1000 T", which ends right
after the type character, that position is past the end of the line and the
stored symbol's name is empty, contradicting the claimed invariant that every
stored Symbol has a name of length at least 1. -/
theorem symbol_name_empty_counterexample :
    (initMsymsWith [] 0 (some ["1000 T".toList])).2
      = [{ name := none, sym_array := some [⟨[], 0x1000⟩], num_syms := 1 }]
  ∧ ∃ mp ∈ (initMsymsWith [] 0 (some ["1000 T".toList])).2,
      ∃ l, mp.sym_array = some l ∧ ∃ s ∈ l, s.name = [] := by
  constructor
  · decide
  · decide

/-- C9 (amended): the symbol record constructed from an accepted line carries
a non-empty name exactly when the (bracket-truncated) line extends beyond
three characters past its first space; an accepted line ending at or before
that point yields a symbol whose stored name is empty. -/
theorem parse_name_nonempty_iff (line : Str) (mo : Option Str) (a : Nat)
    (n : Str) (hp : parseLine line = some (mo, a, n)) (sp : Nat)
    (hsp : (bracketSplit line).2.findIdx? (fun c => c == ' ') = some sp) :
    n ≠ [] ↔ sp + 3 < (bracketSplit line).2.length := by
  simp only [parseLine, hsp] at hp
  simp only [Option.some.injEq, Prod.mk.injEq] at hp
  obtain ⟨-, -, h3⟩ := hp
  rw [← h3, Ne, List.drop_eq_nil_iff, not_le]

/-- Witness for the amended C9: the line "1000 T f1" has its first space at
index 4 and extends past index 7, so its symbol name "f1" is non-empty. -/
theorem parse_name_nonempty_iff_witness :
    "f1".toList ≠ [] ↔ 4 + 3 < (bracketSplit "1000 T f1".toList).2.length :=
  parse_name_nonempty_iff "1000 T f1".toList none 0x1000 "f1".toList
    (by decide) 4 (by decide)

/-- C10: when the query address lies strictly below both the first and the
second symbol address of a (single) module, the scan still takes the first
symbol as the bracketing "previous" symbol: the reported offset is the
64-bit wrap-around `(value - first) mod 2^64`, and, no other module offering
a candidate, the lookup reports found with the first symbol's label even
though that symbol's address exceeds the query. -/
theorem lookup_wrapped_offset_below_first_symbol
    (mname : Option Str) (n0 n1 : Str) (a0 a1 : Nat) (rest : List SymTable)
    (value : Nat) (hv : value < ulMod) (h0 : value < a0) (h01 : a0 < a1)
    (h1 : a1 < ulMod) :
    LookupModuleSymbol value
        [⟨mname, some (⟨n0, a0⟩ :: ⟨n1, a1⟩ :: rest), rest.length + 2⟩]
      = (some (fmtLabel mname n0), (value + (ulMod - a0)) % ulMod, a1 - a0) := by
  have hvm : value % ulMod = value := Nat.mod_eq_of_lt hv
  have ha0 : a0 % ulMod = a0 := Nat.mod_eq_of_lt (by omega)
  have ha1 : a1 % ulMod = a1 := Nat.mod_eq_of_lt h1
  have hscan : scanList ⟨mname, some (⟨n0, a0⟩ :: ⟨n1, a1⟩ :: rest), rest.length + 2⟩
      = ⟨n0, a0⟩ :: ⟨n1, a1⟩ :: rest := by
    simp only [scanList, List.take_succ_cons]
    rw [List.take_length]
  simp only [LookupModuleSymbol, List.foldl_cons, List.foldl_nil, scanModule, hscan,
    scanPairs, hvm]
  rw [if_neg (by simp), if_pos (by omega : value < a1)]
  simp only [updateBest, usub, hvm, ha0, ha1]
  rw [if_pos (Or.inl trivial)]
  have h2x : (a1 + (ulMod - a0)) % ulMod = a1 - a0 := by
    unfold ulMod at *
    omega
  simp only [h2x]
  rw [if_pos (by omega : 0 < a1 - a0)]

/-- Witness for C10: query 0x500 against module "m" with A at 0x1000 and B at
0x1100 is found as "m:A" with the wrapped offset `2^64 - 0xB00`. -/
theorem lookup_wrapped_offset_below_first_symbol_witness :
    LookupModuleSymbol 0x500
        [⟨some "m".toList, some [⟨"A".toList, 0x1000⟩, ⟨"B".toList, 0x1100⟩], 2⟩]
      = (some "m:A".toList, (0x500 + (ulMod - 0x1000)) % ulMod, 0x100) :=
  lookup_wrapped_offset_below_first_symbol (some "m".toList) "A".toList "B".toList
    0x1000 0x1100 [] 0x500 (by decide) (by decide) (by decide) (by decide)

/-- C6: when the externally supplied static symbol count is positive and the
line carries no bracket, the `fgets`-loop iteration leaves the state entirely
unchanged (the line is silently skipped); when the count is zero, a
bracket-less line that passes the space check (the Parser's separator
requirement) is accepted — with allocations succeeding, exactly one symbol is
added, and it lands in a module without a name (the anonymous kernel
module). -/
theorem static_count_filter :
    (∀ (numsyms : Nat) (st : LoadState) (buf : Str),
        0 < numsyms → buf.findIdx? (fun c => c == '[') = none →
        processLine numsyms st buf = st)
  ∧ (∀ (st : LoadState) (line : Str),
        lastNameInv st → st.alloc = [] → stripNL line = line →
        line.findIdx? (fun c => c == '[') = none →
        (line.findIdx? (fun c => c == ' ')).isSome →
        ∃ m, (processLine 0 st line).modules.getLast? = some m ∧ m.name = none ∧
          totalSyms (processLine 0 st line).modules = totalSyms st.modules + 1) := by
  constructor
  · intro numsyms st buf h1 h2
    unfold processLine
    rw [if_pos ⟨h1, h2⟩]
  · intro st line hinv halloc hnl hnb hsp
    obtain ⟨sp, hspv⟩ := Option.isSome_iff_exists.mp hsp
    have hbs : bracketSplit line = (none, line) := by
      unfold bracketSplit
      rw [hnb]
    have hpl : parseLine line
        = some (none, strtoulHex (line.take sp), line.drop (sp + 3)) := by
      simp only [parseLine, hbs, hspv]
    have hstep : processLine 0 st line = (addSymbol st line).2 := by
      unfold processLine
      rw [if_neg (by simp), if_neg (by simp [hspv]), hnl]
    rw [hstep]
    obtain ⟨mods, lastm, alc⟩ := st
    simp only at halloc hinv
    subst halloc
    unfold addSymbol
    rw [hpl]
    dsimp only
    cases mods with
    | nil => exact ⟨_, rfl, rfl, rfl⟩
    | cons m0 ms0 =>
        have hne : m0 :: ms0 ≠ [] := List.cons_ne_nil _ _
        have hlast : (m0 :: ms0).getLast? = some ((m0 :: ms0).getLast hne) :=
          List.getLast?_eq_getLast _ hne
        have hinvv : ((m0 :: ms0).getLast hne).name = lastm := by
          unfold lastNameInv at hinv
          rw [hlast] at hinv
          exact hinv
        cases lastm with
        | none =>
            have hdec : newGroupDecision (m0 :: ms0).length none none = false := by
              simp [newGroupDecision]
            rw [hdec]
            simp only [Bool.false_eq_true, if_false]
            rw [hlast]
            dsimp only
            simp only [commitSym, takeAlloc, if_true]
            rw [getLast?_updateLast, hlast]
            refine ⟨_, rfl, hinvv, ?_⟩
            exact totalSyms_updateLast_succ (fun m => rfl) (m0 :: ms0) hne
        | some nm =>
            have hdec : newGroupDecision (m0 :: ms0).length none (some nm) = true := by
              simp [newGroupDecision]
            rw [hdec]
            simp only [if_true]
            simp only [addModule, takeAlloc, if_true]
            simp only [commitSym, takeAlloc, if_true]
            rw [getLast?_updateLast, List.getLast?_concat]
            refine ⟨_, rfl, rfl, ?_⟩
            rw [totalSyms_updateLast_succ (fun m => rfl) _ (by simp), totalSyms_concat]
            rfl

/-- Witness for C6: with a positive static count the bracket-less line
"1000 T f1" is skipped; with a zero count the same line adds one symbol to
the anonymous module. -/
theorem static_count_filter_witness :
    processLine 3 ⟨[], none, []⟩ "1000 T f1".toList = ⟨[], none, []⟩
  ∧ ∃ m, (processLine 0 ⟨[], none, []⟩ "1000 T f1".toList).modules.getLast? = some m
      ∧ m.name = none
      ∧ totalSyms (processLine 0 ⟨[], none, []⟩ "1000 T f1".toList).modules
          = totalSyms (LoadState.modules ⟨[], none, []⟩) + 1 :=
  ⟨static_count_filter.1 3 ⟨[], none, []⟩ "1000 T f1".toList (by decide) (by decide),
   static_count_filter.2 ⟨[], none, []⟩ "1000 T f1".toList (by decide) (by decide)
     (by decide) (by decide) (by decide)⟩

end Ksym
